import Mathlib

/-!
Verification of the alure audio-context core (`src/context.cpp`, `src/buffer.h`).

The C++ code is shallowly embedded: each operation on `ALContext` becomes a
pure Lean function on an explicit state record.  Calls into the OpenAL
hardware API, the message handler, and the background worker are recorded as
`Event` values; hardware success/failure outcomes and the unspecified
`std::hash<String>` are supplied through an explicit environment record.
Exceptions become `Except AlureError` results.
-/

namespace Alure

/-- Error kinds surfaced by the C++ code via `std::runtime_error` throws.
Each constructor corresponds to one family of throw sites in `context.cpp`. -/
inductive AlureError
  | InvalidOperation
  | ResourceExhausted
  | UnsupportedFormat
  | EmptyResource
  | ResourceNotFound
  | IOError
  | NoDecoder
  | FailedToBufferData
  | UnsupportedOperation
deriving DecidableEq, Repr

instance exceptDecEq {e a : Type _} [DecidableEq e] [DecidableEq a] :
    DecidableEq (Except e a)
  | .ok x, .ok y => decidable_of_iff (x = y) (by simp)
  | .ok _, .error _ => isFalse (by simp)
  | .error _, .ok _ => isFalse (by simp)
  | .error x, .error y => decidable_of_iff (x = y) (by simp)

/-- `BufferLoadStatus` from the public header: a buffer is `Pending` until its
samples are uploaded, then `Ready` (buffer.h `mLoadStatus`). -/
inductive BufferLoadStatus
  | Pending
  | Ready
deriving DecidableEq, Repr

/-- The fields of `ALBuffer` (buffer.h) that `context.cpp` reads or writes.
The constructor `ALBuffer(..., preloaded)` sets
`mLoadStatus = preloaded ? BufferLoad_Ready : BufferLoad_Pending`.
Channel configuration and sample type are abstract codes. -/
structure ALBuffer where
  name : String
  bid : Nat
  frequency : Nat
  channels : Nat
  sampleType : Nat
  loadStatus : BufferLoadStatus
deriving DecidableEq, Repr

/-- A resolved `Decoder` as consumed by `getBuffer`/`getBufferAsync`:
`getFrequency()`, `getChannelConfig()`, `getSampleType()`, `getLength()`,
the frame count actually returned by the single `read` call, and
`getLoopPoints()`. -/
structure Decoder where
  frequency : Nat
  channels : Nat
  sampleType : Nat
  length : Nat
  readResult : Nat
  loopStart : Nat
  loopEnd : Nat
deriving DecidableEq, Repr

/-- Observable effects of the context operations: OpenAL calls, message
handler callbacks, and worker-thread interactions, in program order. -/
inductive Event
  | bufferLoading (name : String)
  | genBuffers (bid : Nat)
  | bufferData (bid : Nat)
  | setLoopPoints (bid s e : Nat)
  | deleteBuffers (bid : Nat)
  | startThread
  | enqueuePending (name : String) (bid : Nat)
  | wakeWorker
  | sourceStopped (handle : Nat) (forced : Bool)
  | setQuitFlag
  | joinThread
  | destroyALCContext
  | removeFromDevice
deriving DecidableEq, Repr

/-- Environment of a buffer operation: everything the code consults that is
not part of the registry state.  `hasher` stands for the unspecified
`std::hash<String>`; `resolve` abstracts `ALContext::createDecoder` (decoder
resolution itself is embedded separately as `GetDecoder` below); `getFormat`
abstracts the `GetFormat` mapping from buffer.cpp; `uploadOk` (resp.
`genBuffersOk`) is the outcome of the `alGetError()` check after the
upload block in `getBuffer` (resp. after `alGenBuffers` in
`getBufferAsync`); `ctxCurrent` is the `CheckContext(this)` precondition. -/
structure Env where
  ctxCurrent : Bool
  hasher : String → Nat
  resolve : String → Except AlureError Decoder
  getFormat : Nat → Nat → Option Nat
  msgPresent : Bool
  hasLoopPointsExt : Bool
  uploadOk : Bool
  genBuffersOk : Bool

/-- The `ALContext` state touched by the buffer registry operations and by
`destroy`: the sorted buffer vector `mBuffers`, a supply of fresh hardware
buffer ids, the pending-load queue, whether the worker thread has been
started (`mThread.joinable()`), the reference count `mRefs`, and whether the
ALC context handle is still alive. -/
structure ALContextState where
  buffers : List ALBuffer
  nextBid : Nat
  pendingQueue : List (String × Nat)
  threadRunning : Bool
  refs : Nat
  contextAlive : Bool
deriving DecidableEq, Repr

/-- The empty initial context state. -/
def ctxInit : ALContextState :=
  { buffers := [], nextBid := 0, pendingQueue := [], threadRunning := false,
    refs := 0, contextAlive := true }

/-- Index returned by `std::lower_bound(mBuffers.begin(), mBuffers.end(), h, …)`
with comparison `hasher(lhs->getName()) < rhs`: on a range sorted by
`hasher ∘ name` this is the first position whose key is not less than `h`,
i.e. the length of the longest prefix of strictly smaller keys. -/
def lowerBoundIdx (hasher : String → Nat) (h : Nat) (l : List ALBuffer) : Nat :=
  (l.takeWhile (fun b => hasher b.name < h)).length

/-- `std::vector::insert(begin() + n, b)` (the iterator from `lower_bound`
never exceeds `end()`, so the out-of-range arm is unreachable). -/
def insertAt {α : Type _} : List α → Nat → α → List α
  | l, 0, b => b :: l
  | [], _ + 1, b => [b]
  | a :: l, n + 1, b => a :: insertAt l n b

/-- `std::vector::erase(begin() + n)`. -/
def eraseAt {α : Type _} : List α → Nat → List α
  | [], _ => []
  | _ :: l, 0 => l
  | a :: l, n + 1 => a :: eraseAt l n

/-- Loop-point normalization from `getBuffer` (context.cpp lines 526-533):
an inverted pair is replaced by the whole buffer, otherwise the end is
clamped to the frame count and the start to just before the clamped end. -/
def normalizeLoopPts (start stop frames : Nat) : Nat × Nat :=
  if start ≥ stop then (0, frames)
  else (min start (min stop frames - 1), min stop frames)

/-- The cooperative busy-wait `while(getLoadStatus() == Pending) yield()`:
`observe k` is the status returned by the k-th poll of `getLoadStatus()`
(the buffer is concurrently flipped to `Ready` by the worker), `fuel` bounds
the number of polls we model; `none` means the loop has not yet exited. -/
def busyWait (observe : Nat → BufferLoadStatus) : Nat → Option BufferLoadStatus
  | 0 => none
  | fuel + 1 =>
    match observe 0 with
    | .Ready => some .Ready
    | .Pending => busyWait (fun k => observe (k + 1)) fuel

/-- The `ALBuffer` constructed by the synchronous path
(`MakeUnique<ALBuffer>(this, bid, srate, chans, type, true, name)`:
`preloaded = true`, so the status is `Ready`). -/
def freshBuffer (name : String) (bid : Nat) (dec : Decoder) : ALBuffer :=
  { name := name, bid := bid, frequency := dec.frequency,
    channels := dec.channels, sampleType := dec.sampleType,
    loadStatus := .Ready }

/-- The calls made by the synchronous upload block, in program order:
optional `bufferLoading` notification, `alGenBuffers`, `alBufferData`, and
the `AL_LOOP_POINTS_SOFT` upload when the extension is present. -/
def loadEvents (env : Env) (name : String) (bid : Nat) (dec : Decoder) : List Event :=
  (if env.msgPresent then [Event.bufferLoading name] else []) ++
  [Event.genBuffers bid, Event.bufferData bid] ++
  (if env.hasLoopPointsExt then
    [Event.setLoopPoints bid
      (normalizeLoopPts dec.loopStart dec.loopEnd dec.readResult).1
      (normalizeLoopPts dec.loopStart dec.loopEnd dec.readResult).2]
   else [])

/-- The miss path of `ALContext::getBuffer` (context.cpp lines 514-568): the
name was not found at the lower-bound position `idx`, so resolve a decoder,
decode eagerly, validate the decode is non-empty, normalize loop points,
check the format mapping, notify `bufferLoading`, upload, and insert a
`Ready` buffer at `idx`.  On an upload error the generated id is deleted
(the `catch` block) and the registry is untouched. -/
def getBufferMiss (env : Env) (st : ALContextState) (name : String) (idx : Nat) :
    Except AlureError ALBuffer × ALContextState × List Event :=
  match env.resolve name with
  | .error e => (.error e, st, [])
  | .ok dec =>
    if dec.readResult = 0 then (.error .EmptyResource, st, [])
    else
      match env.getFormat dec.channels dec.sampleType with
      | none => (.error .UnsupportedFormat, st, [])
      | some _fmt =>
        if env.uploadOk then
          (.ok (freshBuffer name st.nextBid dec),
           { st with
              buffers := insertAt st.buffers idx (freshBuffer name st.nextBid dec),
              nextBid := st.nextBid + 1 },
           loadEvents env name st.nextBid dec)
        else
          (.error .FailedToBufferData, st,
           loadEvents env name st.nextBid dec ++ [Event.deleteBuffers st.nextBid])

/-- The hit test `iter != mBuffers.end() && (*iter)->getName() == name`
shared by `getBuffer`, `getBufferAsync` and `removeBuffer`: the entry at
the lower-bound position, provided its name matches. -/
def foundAt (env : Env) (st : ALContextState) (name : String) : Option ALBuffer :=
  match st.buffers.get? (lowerBoundIdx env.hasher (env.hasher name) st.buffers) with
  | some b => if b.name = name then some b else none
  | none => none

/-- `ALContext::getBuffer` (context.cpp lines 494-569).  The registry is
searched by `lower_bound` on the name hash; a hit busy-waits until the
stored buffer's status leaves `Pending` and returns it; a miss decodes and
inserts synchronously.  The outer `Option` is `none` when the busy-wait
has not exited within `fuel` polls. -/
def getBuffer (env : Env) (st : ALContextState) (name : String)
    (observe : Nat → BufferLoadStatus) (fuel : Nat) :
    Option (Except AlureError ALBuffer × ALContextState × List Event) :=
  if env.ctxCurrent = false then some (.error .InvalidOperation, st, []) else
  let idx := lowerBoundIdx env.hasher (env.hasher name) st.buffers
  match foundAt env st name with
  | some b =>
    if b.loadStatus = .Ready then some (.ok b, st, [])
    else
      match busyWait observe fuel with
      | none => none
      | some s =>
        let b' := { b with loadStatus := s }
        some (.ok b', { st with buffers := st.buffers.set idx b' }, [])
  | none => some (getBufferMiss env st name idx)

/-- The `ALBuffer` constructed by the asynchronous path
(`preloaded = false`, so the status is `Pending`). -/
def pendingBuffer (name : String) (bid : Nat) (dec : Decoder) : ALBuffer :=
  { name := name, bid := bid, frequency := dec.frequency,
    channels := dec.channels, sampleType := dec.sampleType,
    loadStatus := .Pending }

/-- The calls made by the asynchronous miss path after a successful
`alGenBuffers`: start the worker if it is not running, place the
`PendingBuffer` record in the ring, wake the worker. -/
def asyncEvents (threadRunning : Bool) (name : String) (bid : Nat) : List Event :=
  [Event.genBuffers bid] ++
  (if threadRunning then [] else [Event.startThread]) ++
  [Event.enqueuePending name bid, Event.wakeWorker]

/-- The miss path of `ALContext::getBufferAsync` (context.cpp lines 584-621):
validate the decoder's reported length and format, generate a hardware id,
build a `Pending` buffer, start the worker if needed, enqueue the pending
load, wake the worker, and insert at `idx`.  (The bounded-ring backpressure
yield loop is not modelled; the queue is a list.) -/
def getBufferAsyncMiss (env : Env) (st : ALContextState) (name : String) (idx : Nat) :
    Except AlureError ALBuffer × ALContextState × List Event :=
  match env.resolve name with
  | .error e => (.error e, st, [])
  | .ok dec =>
    if dec.length = 0 then (.error .EmptyResource, st, [])
    else
      match env.getFormat dec.channels dec.sampleType with
      | none => (.error .UnsupportedFormat, st, [])
      | some _fmt =>
        if env.genBuffersOk = false then
          (.error .FailedToBufferData, st, [Event.genBuffers st.nextBid])
        else
          (.ok (pendingBuffer name st.nextBid dec),
           { st with
              buffers := insertAt st.buffers idx (pendingBuffer name st.nextBid dec),
              nextBid := st.nextBid + 1,
              threadRunning := true,
              pendingQueue := st.pendingQueue ++ [(name, st.nextBid)] },
           asyncEvents st.threadRunning name st.nextBid)

/-- `ALContext::getBufferAsync` (context.cpp lines 571-621): a hit returns the
stored buffer immediately in whatever state it is in; a miss allocates the
hardware object, inserts the buffer in `Pending` state and enqueues a load. -/
def getBufferAsync (env : Env) (st : ALContextState) (name : String) :
    Except AlureError ALBuffer × ALContextState × List Event :=
  if env.ctxCurrent = false then (.error .InvalidOperation, st, []) else
  let idx := lowerBoundIdx env.hasher (env.hasher name) st.buffers
  match foundAt env st name with
  | some b => (.ok b, st, [])
  | none => getBufferAsyncMiss env st name idx

/-- `ALContext::removeBuffer(name)` (context.cpp lines 624-637): silently a
no-op when the name is not found, otherwise erases the registry entry. -/
def removeBuffer (env : Env) (st : ALContextState) (name : String) :
    Except AlureError (ALContextState × List Event) :=
  if env.ctxCurrent = false then .error .InvalidOperation else
  let idx := lowerBoundIdx env.hasher (env.hasher name) st.buffers
  match foundAt env st name with
  | some _b => .ok ({ st with buffers := eraseAt st.buffers idx }, [])
  | none => .ok (st, [])

/-- `ALContext::destroy` (context.cpp lines 405-425): refuses while the
reference count is nonzero or the registry is non-empty; otherwise, if the
worker thread was ever started, it sets the quit flag, wakes the worker and
joins it, and only then destroys the ALC context and detaches from the
device. -/
def destroy (st : ALContextState) :
    Except AlureError (ALContextState × List Event) :=
  if st.refs ≠ 0 then .error .InvalidOperation
  else if st.buffers ≠ [] then .error .InvalidOperation
  else
    .ok ({ st with threadRunning := false, contextAlive := false },
      (if st.threadRunning then [Event.setQuitFlag, Event.wakeWorker, Event.joinThread]
       else []) ++ [Event.destroyALCContext, Event.removeFromDevice])

/-- The fields of `ALSource` that `getSourceId` reads: the hardware voice id
(`getId()`, 0 when no voice is held) and the eviction priority
(`getPriority()`).  `handle` models C++ pointer identity of the source
object (distinct objects have distinct handles). -/
structure ALSource where
  handle : Nat
  id : Nat
  priority : Nat
deriving DecidableEq, Repr

/-- One iteration of the `for(ALSource *src : mUsedSources)` scan of
`getSourceId` (context.cpp lines 658-662): a source with no voice is
skipped; otherwise it becomes the candidate when there is none yet or its
priority is strictly lower. -/
def scanStep (acc : Option ALSource) (s : ALSource) : Option ALSource :=
  if s.id = 0 then acc
  else
    match acc with
    | none => some s
    | some l => if s.priority < l.priority then some s else some l

/-- The whole `for(ALSource *src : mUsedSources)` scan: fold `scanStep`
over the used sources, starting from `lowest = nullptr`. -/
def scanLowest (acc : Option ALSource) : List ALSource → Option ALSource
  | [] => acc
  | s :: rest => scanLowest (scanStep acc s) rest

/-- Modelled from the spec: `ALSource::makeStopped` lives in `source.cpp`,
which is not part of the provided sources.  Per §4.2 it "forcibly stops"
the victim and "reclaims its voice": the source identified by `h` loses its
voice id (set to 0); the id itself is pushed back on the free stack by the
caller model `getSourceId`. -/
def stopSource : List ALSource → Nat → List ALSource
  | [], _ => []
  | s :: rest, h =>
    if s.handle = h then { s with id := 0 } :: rest else s :: stopSource rest h

/-- Environment of `getSourceId`: whether the context is current, whether
`alGenSources` succeeds (hardware voice pool not exhausted) and which id it
yields, and whether a message handler is installed. -/
structure VoiceEnv where
  ctxCurrent : Bool
  genOk : Bool
  genId : Nat
  msgPresent : Bool

/-- The voice-pool state of `ALContext`: `mSourceIds` (free voice-id stack,
head = top) and `mUsedSources`. -/
structure VoiceState where
  sourceIds : List Nat
  usedSources : List ALSource
deriving DecidableEq, Repr

/-- The eviction block of `getSourceId` (context.cpp lines 657-668): scan
for the lowest-priority voice holder; when its priority is strictly below
the request priority, stop it (its voice id returns to the free stack) and
notify `sourceStopped(lowest, true)` if a handler is installed. -/
def evictLowest (msgPresent : Bool) (st : VoiceState) (maxprio : Nat) :
    VoiceState × List Event :=
  match scanLowest none st.usedSources with
  | none => (st, [])
  | some low =>
    if low.priority < maxprio then
      ({ sourceIds := low.id :: st.sourceIds,
         usedSources := stopSource st.usedSources low.handle },
       if msgPresent then [Event.sourceStopped low.handle true] else [])
    else (st, [])

/-- `ALContext::getSourceId(maxprio)` (context.cpp lines 645-676): if the
free stack is empty, try to generate a fresh hardware source; on hardware
failure run the eviction block; if the stack is still empty fail with
`ResourceExhausted`, otherwise pop the top id. -/
def getSourceId (env : VoiceEnv) (st : VoiceState) (maxprio : Nat) :
    Except AlureError (Nat × VoiceState × List Event) :=
  if env.ctxCurrent = false then .error .InvalidOperation else
  match st.sourceIds with
  | topId :: rest => .ok (topId, { st with sourceIds := rest }, [])
  | [] =>
    if env.genOk then .ok (env.genId, st, [])
    else
      match evictLowest env.msgPresent st maxprio with
      | (st1, evs) =>
        match st1.sourceIds with
        | [] => .error .ResourceExhausted
        | topId :: rest => .ok (topId, { st1 with sourceIds := rest }, evs)

/-- A step of the source-recycling pool: `createSource` or
`freeSource`-on-a-given-source, for running call sequences. -/
inductive SrcOp
  | create
  | free (s : Nat)
deriving DecidableEq, Repr

/-- The source-recycling state of `ALContext`: how many `ALSource` objects
were ever constructed into `mAllSources` (sources are identified by their
allocation index, modelling pointer identity), the free list
`mFreeSources` (head = back of the vector, i.e. most recently pushed), and
the sorted used-source index `mUsedSources`. -/
structure SrcPoolState where
  allCount : Nat
  freeSources : List Nat
  usedSources : List Nat
deriving DecidableEq, Repr

/-- The empty source pool. -/
def poolInit : SrcPoolState := { allCount := 0, freeSources := [], usedSources := [] }

/-- `std::lower_bound` + conditional `insert` into the sorted
`mUsedSources` (context.cpp lines 694-696), specialized to sorted lists. -/
def insertSortedNat : List Nat → Nat → List Nat
  | [], x => [x]
  | y :: rest, x =>
    if x < y then x :: y :: rest
    else if x = y then y :: rest
    else y :: insertSortedNat rest x

/-- `std::lower_bound` + conditional `erase` from the sorted `mUsedSources`
(context.cpp lines 702-703), specialized to sorted lists. -/
def eraseSortedNat : List Nat → Nat → List Nat
  | [], _ => []
  | y :: rest, x => if y = x then rest else y :: eraseSortedNat rest x

/-- `ALContext::createSource` (context.cpp lines 679-698): take the back of
the free list if non-empty, otherwise construct a brand-new `ALSource`;
then insert into the sorted used index. -/
def createSource (st : SrcPoolState) : Nat × SrcPoolState :=
  match st.freeSources with
  | s :: rest =>
    (s, { st with freeSources := rest, usedSources := insertSortedNat st.usedSources s })
  | [] =>
    (st.allCount,
     { allCount := st.allCount + 1, freeSources := [],
       usedSources := insertSortedNat st.usedSources st.allCount })

/-- `ALContext::freeSource` (context.cpp lines 700-705): erase from the used
index and push onto the free list. -/
def freeSource (st : SrcPoolState) (s : Nat) : SrcPoolState :=
  { st with usedSources := eraseSortedNat st.usedSources s,
            freeSources := s :: st.freeSources }

/-- Run a sequence of pool operations. -/
def runOps : List SrcOp → SrcPoolState → SrcPoolState
  | [], st => st
  | .create :: ops, st => runOps ops (createSource st).2
  | .free s :: ops, st => runOps ops (freeSource st s)

/-- A call sequence is valid when every `freeSource` releases a source that
is currently live (in C++ the caller can only release pointers previously
handed out by `createSource` and not yet released). -/
def validOps : List SrcOp → SrcPoolState → Bool
  | [], _ => true
  | .create :: ops, st => validOps ops (createSource st).2
  | .free s :: ops, st => st.usedSources.contains s && validOps ops (freeSource st s)

/-- A byte stream handed to decoder factories: its read position and whether
`clear(); seekg(0)` would succeed on it. -/
structure DStream where
  pos : Nat
  seekOk : Bool
deriving DecidableEq, Repr

/-- A `DecoderFactory`: `createDecoder` consumes the stream reference and
returns either a decoder (taking ownership of the stream) or no decoder
together with the state the `UniquePtr<istream>` reference was left in
(`none` models a factory that nulled the pointer). -/
structure DecoderFactory where
  create : DStream → Option Decoder × Option DStream

/-- The factory loop of `GetDecoder` (context.cpp lines 70-86): try each
factory; on rejection `clear()`+`seekg(0)` must succeed or a fatal error is
raised; returns the decoder (if any), the stream as rewound after the last
rejection, and the number of rewinds performed. -/
def tryFactories (file : DStream) :
    List DecoderFactory → Except AlureError (Option Decoder × DStream × Nat)
  | [] => .ok (none, file, 0)
  | f :: rest =>
    match f.create file with
    | (some d, _) => .ok (some d, file, 0)
    | (none, after) =>
      match after with
      | none => .error .IOError
      | some s =>
        if s.seekOk then
          match tryFactories { s with pos := 0 } rest with
          | .ok (d, f', n) => .ok (d, f', n + 1)
          | .error e => .error e
        else .error .IOError

/-- Lexicographic comparison of character lists: the `operator<` of the
`std::map<String, …>` key type. -/
def charListLt : List Char → List Char → Bool
  | [], [] => false
  | [], _ :: _ => true
  | _ :: _, [] => false
  | c :: cs, d :: ds =>
    if c < d then true else if d < c then false else charListLt cs ds

/-- Lexicographic string comparison (the `std::map` key order). -/
def strLtB (a b : String) : Bool := charListLt a.data b.data

/-- Insertion into the `std::map<String, DecoderFactory>` `sDecoders`,
keyed (and therefore iterated) in lexicographic name order. -/
def insertReg (p : String × DecoderFactory) :
    List (String × DecoderFactory) → List (String × DecoderFactory)
  | [] => [p]
  | q :: rest => if strLtB p.1 q.1 then p :: q :: rest else q :: insertReg p rest

/-- `RegisterDecoder` (context.cpp lines 96-101): refuse a name already in
the map, otherwise insert. -/
def RegisterDecoder (reg : List (String × DecoderFactory)) (name : String)
    (f : DecoderFactory) : Except AlureError (List (String × DecoderFactory)) :=
  if reg.any (fun q => q.1 = name) then .error .InvalidOperation
  else .ok (insertReg (name, f) reg)

/-- The two-phase `GetDecoder` (context.cpp lines 88-94): first the
registered map `sDecoders` in its iteration (name) order, then the built-in
`sDefaultDecoders` array in its fixed order; no decoder at all is a fatal
error.  Returns the decoder and the total number of stream rewinds. -/
def GetDecoder (file : DStream) (reg : List (String × DecoderFactory))
    (builtins : List DecoderFactory) : Except AlureError (Decoder × Nat) :=
  match tryFactories file (reg.map Prod.snd) with
  | .error e => .error e
  | .ok (some d, _, n) => .ok (d, n)
  | .ok (none, f', n) =>
    match tryFactories f' builtins with
    | .error e => .error e
    | .ok (some d, _, m) => .ok (d, n + m)
    | .ok (none, _, _) => .error .NoDecoder

/-- A `FileIOFactory`: `openFile(name)` yields a byte stream or nothing.
Streams are abstract tokens. -/
structure FileFactory where
  openFile : String → Option Nat

/-- `DefaultFileIOFactory` (context.cpp lines 116-123): opens the name as a
binary `ifstream`; the filesystem is modelled as `fs`, with `fs name = none`
exactly when the file cannot be opened. -/
def DefaultFileIOFactory (fs : String → Option Nat) : FileFactory :=
  { openFile := fun name => fs name }

/-- `FileIOFactory::set` (context.cpp lines 127-131): swap the installed
user factory (possibly null) with the argument and return the previous
one.  Result: (returned previous factory, new installed state). -/
def fileIOFactorySet (cur : Option FileFactory) (f : Option FileFactory) :
    Option FileFactory × Option FileFactory :=
  (cur, f)

/-- `FileIOFactory::get` (context.cpp lines 133-138): the installed user
factory if any, else the built-in default. -/
def fileIOFactoryGet (fs : String → Option Nat) (cur : Option FileFactory) :
    FileFactory :=
  match cur with
  | some f => f
  | none => DefaultFileIOFactory fs

/-! ## Helper lemmas -/

theorem triple_eq {α β γ : Type _} {a d : α} {b e : β} {c f : γ}
    (h : (a, b, c) = (d, e, f)) : a = d ∧ b = e ∧ c = f := by
  cases h; exact ⟨rfl, rfl, rfl⟩

theorem busyWait_ready (observe : Nat → BufferLoadStatus) (fuel : Nat)
    (s : BufferLoadStatus) (h : busyWait observe fuel = some s) : s = .Ready := by
  induction fuel generalizing observe with
  | zero => simp [busyWait] at h
  | succ n ih =>
    rw [busyWait] at h
    split at h
    · exact (Option.some.inj h).symm
    · exact ih _ h

theorem busyWait_pending (observe : Nat → BufferLoadStatus)
    (h : ∀ k, observe k = .Pending) : ∀ fuel, busyWait observe fuel = none := by
  intro fuel
  induction fuel generalizing observe with
  | zero => rfl
  | succ n ih =>
    rw [busyWait, h 0]
    exact ih _ (fun k => h (k + 1))

theorem getBufferMiss_ok (env : Env) (st : ALContextState) (name : String)
    (idx : Nat) (b : ALBuffer) (st' : ALContextState) (evs : List Event)
    (h : getBufferMiss env st name idx = (.ok b, st', evs)) :
    b.loadStatus = .Ready ∧ b.name = name ∧ b.bid = st.nextBid ∧
      st'.buffers = insertAt st.buffers idx b ∧ st'.nextBid = st.nextBid + 1 := by
  unfold getBufferMiss at h
  split at h
  · exact absurd (triple_eq h).1 (by simp)
  · split at h
    · exact absurd (triple_eq h).1 (by simp)
    · split at h
      · exact absurd (triple_eq h).1 (by simp)
      · split at h
        · obtain ⟨hb, hst, -⟩ := triple_eq h
          obtain rfl := Except.ok.inj hb
          obtain rfl := hst
          exact ⟨rfl, rfl, rfl, rfl, rfl⟩
        · exact absurd (triple_eq h).1 (by simp)

theorem getBufferMiss_error (env : Env) (st : ALContextState) (name : String)
    (idx : Nat) (e : AlureError) (st' : ALContextState) (evs : List Event)
    (h : getBufferMiss env st name idx = (.error e, st', evs)) : st' = st := by
  unfold getBufferMiss at h
  split at h
  · exact (triple_eq h).2.1.symm
  · split at h
    · exact (triple_eq h).2.1.symm
    · split at h
      · exact (triple_eq h).2.1.symm
      · split at h
        · exact absurd (triple_eq h).1 (by simp)
        · exact (triple_eq h).2.1.symm

theorem getBufferAsyncMiss_error (env : Env) (st : ALContextState) (name : String)
    (idx : Nat) (e : AlureError) (st' : ALContextState) (evs : List Event)
    (h : getBufferAsyncMiss env st name idx = (.error e, st', evs)) : st' = st := by
  unfold getBufferAsyncMiss at h
  split at h
  · exact (triple_eq h).2.1.symm
  · split at h
    · exact (triple_eq h).2.1.symm
    · split at h
      · exact (triple_eq h).2.1.symm
      · split at h
        · exact (triple_eq h).2.1.symm
        · exact absurd (triple_eq h).1 (by simp)

/-! ## Registry order -/

/-- The ordering invariant actually maintained by the registry: entries are
sorted by the hash of their name (the `lower_bound` key). -/
def SortedByHash (hasher : String → Nat) (l : List ALBuffer) : Prop :=
  l.Pairwise (fun a b => hasher a.name ≤ hasher b.name)

instance (hasher : String → Nat) (l : List ALBuffer) :
    Decidable (SortedByHash hasher l) := by
  unfold SortedByHash
  infer_instance

theorem mem_insertAt {α : Type _} :
    ∀ (l : List α) (n : Nat) (b x : α), x ∈ insertAt l n b → x = b ∨ x ∈ l
  | l, 0, b, x => by
    rw [insertAt]
    simp
  | [], n + 1, b, x => by
    rw [insertAt]
    simp
  | a :: l, n + 1, b, x => by
    rw [insertAt]
    intro hx
    rcases List.mem_cons.mp hx with rfl | hx2
    · exact Or.inr (List.mem_cons_self _ _)
    · rcases mem_insertAt l n b x hx2 with rfl | hmem
      · exact Or.inl rfl
      · exact Or.inr (List.mem_cons_of_mem _ hmem)

theorem mem_eraseAt {α : Type _} :
    ∀ (l : List α) (n : Nat) (x : α), x ∈ eraseAt l n → x ∈ l
  | [], n, x => by rw [eraseAt]; exact id
  | a :: l, 0, x => by
    rw [eraseAt]
    exact List.mem_cons_of_mem _
  | a :: l, n + 1, x => by
    rw [eraseAt]
    simp only [List.mem_cons]
    rintro (rfl | hx)
    · exact Or.inl rfl
    · exact Or.inr (mem_eraseAt l n x hx)

theorem sortedByHash_insertAt (hasher : String → Nat) (b : ALBuffer) :
    ∀ l : List ALBuffer, SortedByHash hasher l →
      SortedByHash hasher
        (insertAt l (lowerBoundIdx hasher (hasher b.name) l) b) := by
  intro l
  induction l with
  | nil =>
    intro _
    rw [SortedByHash, lowerBoundIdx]
    simp [insertAt]
  | cons a l ih =>
    intro hs
    rw [SortedByHash, List.pairwise_cons] at hs
    rw [lowerBoundIdx]
    by_cases ha : hasher a.name < hasher b.name
    · rw [List.takeWhile_cons_of_pos (by simpa using ha)]
      rw [List.length_cons, insertAt, SortedByHash, List.pairwise_cons]
      refine ⟨?_, ih hs.2⟩
      intro x hx
      rcases mem_insertAt _ _ _ _ hx with rfl | hxl
      · exact Nat.le_of_lt ha
      · exact hs.1 x hxl
    · rw [List.takeWhile_cons_of_neg (by simpa using ha)]
      rw [List.length_nil, insertAt, SortedByHash, List.pairwise_cons]
      refine ⟨?_, List.pairwise_cons.mpr hs⟩
      intro x hx
      rcases List.mem_cons.mp hx with rfl | hxl
      · omega
      · exact Nat.le_trans (by omega) (hs.1 x hxl)

theorem sortedByHash_eraseAt (hasher : String → Nat) :
    ∀ (l : List ALBuffer) (n : Nat), SortedByHash hasher l →
      SortedByHash hasher (eraseAt l n)
  | [], n, hs => by rw [eraseAt]; exact hs
  | a :: l, 0, hs => by
    rw [eraseAt]
    exact (List.pairwise_cons.mp hs).2
  | a :: l, n + 1, hs => by
    rw [SortedByHash, List.pairwise_cons] at hs
    rw [eraseAt, SortedByHash, List.pairwise_cons]
    exact ⟨fun x hx => hs.1 x (mem_eraseAt l n x hx),
           sortedByHash_eraseAt hasher l n hs.2⟩

theorem set_get_self {α : Type _} :
    ∀ (l : List α) (i : Nat) (x : α), l.get? i = some x → l.set i x = l
  | [], i, x, h => by simp at h
  | a :: l, 0, x, h => by
    obtain rfl := Option.some.inj h
    rfl
  | a :: l, i + 1, x, h => by
    rw [List.set_cons_succ]
    rw [set_get_self l i x h]

theorem sortedByHash_set_name (hasher : String → Nat) :
    ∀ (l : List ALBuffer) (i : Nat) (b b' : ALBuffer),
      l.get? i = some b → b'.name = b.name → SortedByHash hasher l →
      SortedByHash hasher (l.set i b')
  | [], i, b, b', hget, hname, hs => by simp at hget
  | a :: l, 0, b, b', hget, hname, hs => by
    obtain rfl := Option.some.inj hget
    rw [SortedByHash, List.pairwise_cons] at hs
    rw [List.set_cons_zero, SortedByHash, List.pairwise_cons]
    exact ⟨fun x hx => hname ▸ hs.1 x hx, hs.2⟩
  | a :: l, i + 1, b, b', hget, hname, hs => by
    rw [SortedByHash, List.pairwise_cons] at hs
    rw [List.set_cons_succ, SortedByHash, List.pairwise_cons]
    refine ⟨?_, sortedByHash_set_name hasher l i b b' hget hname hs.2⟩
    intro x hx
    rcases List.mem_or_eq_of_mem_set hx with hxl | rfl
    · exact hs.1 x hxl
    · exact hname ▸ hs.1 b (List.get?_mem hget)

theorem map_name_set (l : List ALBuffer) (i : Nat) (b b' : ALBuffer)
    (hget : l.get? i = some b) (hname : b'.name = b.name) :
    (l.set i b').map ALBuffer.name = l.map ALBuffer.name := by
  rw [List.map_set]
  refine set_get_self _ _ _ ?_
  rw [List.get?_map, hget, hname]
  rfl

theorem get_takeWhile_length {α : Type _} (p : α → Bool) :
    ∀ l : List α, l.get? (l.takeWhile p).length = (l.dropWhile p).head?
  | [] => rfl
  | a :: l => by
    by_cases ha : p a
    · rw [List.takeWhile_cons_of_pos ha, List.dropWhile_cons_of_pos ha,
        List.length_cons, List.get?_cons_succ]
      exact get_takeWhile_length p l
    · rw [List.takeWhile_cons_of_neg (by simpa using ha),
        List.dropWhile_cons_of_neg (by simpa using ha)]
      rfl

theorem head_dropWhile_false {α : Type _} (p : α → Bool) :
    ∀ (l : List α) (c : α) (rest : List α),
      l.dropWhile p = c :: rest → p c = false
  | [], c, rest, h => by simp at h
  | a :: l, c, rest, h => by
    by_cases ha : p a
    · rw [List.dropWhile_cons_of_pos ha] at h
      exact head_dropWhile_false p l c rest h
    · rw [List.dropWhile_cons_of_neg (by simpa using ha)] at h
      obtain rfl := (List.cons.inj h).1
      simpa using ha

/-- On a hash-sorted list, the entry at the `lower_bound` position for key
`h` has key exactly `h` whenever some entry with key `h` is present. -/
theorem sorted_lookup (hasher : String → Nat) (h : Nat) :
    ∀ l : List ALBuffer, l.Pairwise (fun a b => hasher a.name ≤ hasher b.name) →
      ∀ b, b ∈ l → hasher b.name = h →
      ∃ c, l.get? (lowerBoundIdx hasher h l) = some c ∧
        hasher c.name = h ∧ c ∈ l := by
  intro l
  induction l with
  | nil =>
    intro _ b hb
    exact absurd hb (List.not_mem_nil b)
  | cons a l ih =>
    intro hp b hb hkb
    rw [List.pairwise_cons] at hp
    rw [lowerBoundIdx]
    by_cases ha : hasher a.name < h
    · rw [List.takeWhile_cons_of_pos (by simpa using ha), List.length_cons,
        List.get?_cons_succ]
      have hbl : b ∈ l := by
        rcases List.mem_cons.mp hb with rfl | hbl
        · omega
        · exact hbl
      obtain ⟨c, hc1, hc2, hc3⟩ := ih hp.2 b hbl hkb
      rw [lowerBoundIdx] at hc1
      exact ⟨c, hc1, hc2, List.mem_cons_of_mem _ hc3⟩
    · rw [List.takeWhile_cons_of_neg (by simpa using ha)]
      refine ⟨a, rfl, ?_, List.mem_cons_self _ _⟩
      rcases List.mem_cons.mp hb with rfl | hbl
      · omega
      · have := hp.1 b hbl
        omega

/-- Key lookup lemma: on a hash-sorted registry whose hash is injective on
the relevant names, the `lower_bound` + name-equality test of the fetch
paths finds an entry whenever one with the requested name is present. -/
theorem foundAt_of_mem (env : Env) (st : ALContextState) (name : String)
    (b : ALBuffer) (hs : SortedByHash env.hasher st.buffers)
    (hmem : b ∈ st.buffers) (hname : b.name = name)
    (hinj : ∀ c ∈ st.buffers, env.hasher c.name = env.hasher name →
      c.name = name) :
    ∃ c, foundAt env st name = some c ∧ c.name = name ∧ c ∈ st.buffers := by
  obtain ⟨c, hc1, hc2, hc3⟩ := sorted_lookup env.hasher (env.hasher name)
    st.buffers hs b hmem (by rw [hname])
  have hcname := hinj c hc3 hc2
  refine ⟨c, ?_, hcname, hc3⟩
  unfold foundAt
  rw [hc1]
  simp [hcname]


theorem pair_eq {α β : Type _} {a c : α} {b d : β} (h : (a, b) = (c, d)) :
    a = c ∧ b = d := by
  cases h; exact ⟨rfl, rfl⟩

theorem foundAt_some_inv (env : Env) (st : ALContextState) (name : String)
    (b : ALBuffer) (h : foundAt env st name = some b) :
    st.buffers.get? (lowerBoundIdx env.hasher (env.hasher name) st.buffers) =
      some b ∧ b.name = name := by
  unfold foundAt at h
  split at h
  · rename_i c heq
    split at h
    · obtain rfl := Option.some.inj h
      exact ⟨heq, by assumption⟩
    · exact absurd h (by simp)
  · exact absurd h (by simp)

theorem getBufferAsyncMiss_ok (env : Env) (st : ALContextState) (name : String)
    (idx : Nat) (b : ALBuffer) (st' : ALContextState) (evs : List Event)
    (h : getBufferAsyncMiss env st name idx = (.ok b, st', evs)) :
    b.loadStatus = .Pending ∧ b.name = name ∧ b.bid = st.nextBid ∧
      st'.buffers = insertAt st.buffers idx b ∧
      st'.pendingQueue = st.pendingQueue ++ [(name, st.nextBid)] ∧
      st'.threadRunning = true := by
  unfold getBufferAsyncMiss at h
  split at h
  · exact absurd (triple_eq h).1 (by simp)
  · split at h
    · exact absurd (triple_eq h).1 (by simp)
    · split at h
      · exact absurd (triple_eq h).1 (by simp)
      · split at h
        · exact absurd (triple_eq h).1 (by simp)
        · obtain ⟨hb, hst, -⟩ := triple_eq h
          obtain rfl := Except.ok.inj hb
          obtain rfl := hst
          exact ⟨rfl, rfl, rfl, rfl, rfl, rfl⟩

theorem getBuffer_preserves_sorted (env : Env) (st : ALContextState)
    (name : String) (observe : Nat → BufferLoadStatus) (fuel : Nat)
    (r : Except AlureError ALBuffer) (st' : ALContextState) (evs : List Event)
    (hs : SortedByHash env.hasher st.buffers)
    (h : getBuffer env st name observe fuel = some (r, st', evs)) :
    SortedByHash env.hasher st'.buffers := by
  unfold getBuffer at h
  split at h
  · obtain ⟨-, hst, -⟩ := triple_eq (Option.some.inj h)
    exact hst ▸ hs
  · split at h
    · rename_i b hfa
      split at h
      · obtain ⟨-, hst, -⟩ := triple_eq (Option.some.inj h)
        exact hst ▸ hs
      · split at h
        · exact absurd h (by simp)
        · obtain ⟨-, hst, -⟩ := triple_eq (Option.some.inj h)
          obtain ⟨hget, hname⟩ := foundAt_some_inv env st name b hfa
          rw [← hst]
          exact sortedByHash_set_name env.hasher st.buffers _ b _ hget rfl hs
    · replace h := Option.some.inj h
      rcases r with e | b
      · rw [getBufferMiss_error env st name _ e st' evs h]
        exact hs
      · obtain ⟨-, hbname, -, hbuf, -⟩ := getBufferMiss_ok env st name _ b st' evs h
        rw [hbuf, ← hbname]
        exact sortedByHash_insertAt env.hasher b st.buffers hs

theorem getBufferAsync_preserves_sorted (env : Env) (st : ALContextState)
    (name : String) (r : Except AlureError ALBuffer) (st' : ALContextState)
    (evs : List Event) (hs : SortedByHash env.hasher st.buffers)
    (h : getBufferAsync env st name = (r, st', evs)) :
    SortedByHash env.hasher st'.buffers := by
  unfold getBufferAsync at h
  split at h
  · obtain ⟨-, hst, -⟩ := triple_eq h
    exact hst ▸ hs
  · split at h
    · obtain ⟨-, hst, -⟩ := triple_eq h
      exact hst ▸ hs
    · rcases r with e | b
      · rw [getBufferAsyncMiss_error env st name _ e st' evs h]
        exact hs
      · obtain ⟨-, hbname, -, hbuf, -, -⟩ :=
          getBufferAsyncMiss_ok env st name _ b st' evs h
        rw [hbuf, ← hbname]
        exact sortedByHash_insertAt env.hasher b st.buffers hs

theorem removeBuffer_preserves_sorted (env : Env) (st : ALContextState)
    (name : String) (st' : ALContextState) (evs : List Event)
    (hs : SortedByHash env.hasher st.buffers)
    (h : removeBuffer env st name = .ok (st', evs)) :
    SortedByHash env.hasher st'.buffers := by
  unfold removeBuffer at h
  split at h
  · exact absurd h (by simp)
  · split at h
    · obtain ⟨hst, -⟩ := pair_eq (Except.ok.inj h)
      rw [← hst]
      exact sortedByHash_eraseAt env.hasher st.buffers _ hs
    · obtain ⟨hst, -⟩ := pair_eq (Except.ok.inj h)
      rw [← hst]
      exact hs

theorem get_takeWhile_front {α : Type _} (p : α → Bool) :
    ∀ (l : List α) (j : Nat), j < (l.takeWhile p).length →
      l.get? j = (l.takeWhile p).get? j
  | [], j, h => by simp at h
  | a :: l, j, h => by
    by_cases ha : p a
    · rw [List.takeWhile_cons_of_pos ha] at h ⊢
      cases j with
      | zero => rfl
      | succ j =>
        rw [List.get?_cons_succ, List.get?_cons_succ]
        exact get_takeWhile_front p l j (by simpa using h)
    · rw [List.takeWhile_cons_of_neg (by simpa using ha)] at h
      simp at h

theorem lowerBoundIdx_lt (hasher : String → Nat) (hl : Nat) (l : List ALBuffer)
    (j : Nat) (b : ALBuffer) (hj : j < lowerBoundIdx hasher hl l)
    (hget : l.get? j = some b) : hasher b.name < hl := by
  rw [lowerBoundIdx] at hj
  rw [get_takeWhile_front _ l j hj] at hget
  have := List.mem_takeWhile_imp (List.get?_mem hget)
  simpa using this

theorem lowerBoundIdx_ge (hasher : String → Nat) (hl : Nat) (l : List ALBuffer)
    (b : ALBuffer) (hget : l.get? (lowerBoundIdx hasher hl l) = some b) :
    hl ≤ hasher b.name := by
  rw [lowerBoundIdx, get_takeWhile_length] at hget
  rcases hdw : l.dropWhile (fun x => decide (hasher x.name < hl)) with _ | ⟨c, rest⟩
  · rw [hdw] at hget
    simp at hget
  · rw [hdw, List.head?_cons] at hget
    obtain rfl := Option.some.inj hget
    have := head_dropWhile_false _ _ _ _ hdw
    simpa using this

/-! ## Concrete runs -/

/-- A concrete decoder used in concrete runs: 100 frames read, loop points
`(5,3)` as reported by `getLoopPoints`. -/
def decW : Decoder :=
  { frequency := 44100, channels := 1, sampleType := 2, length := 100,
    readResult := 100, loopStart := 5, loopEnd := 3 }

/-- A concrete stand-in for the unspecified `std::hash<String>`:
`"a" ↦ 1`, `"b" ↦ 0`, everything else `↦ 2`. -/
def hasher3 : String → Nat :=
  fun s => if s = "a" then 1 else if s = "b" then 0 else 2

/-- A concrete environment: context current, every name resolves to `decW`,
every layout supported, all hardware calls succeed, no handler, no
loop-points extension. -/
def env3 : Env :=
  { ctxCurrent := true, hasher := hasher3, resolve := fun _ => .ok decW,
    getFormat := fun _ _ => some 1, msgPresent := false,
    hasLoopPointsExt := false, uploadOk := true, genBuffersOk := true }

/-- The registry state after asynchronously fetching "b", then "a", then
"c" in an empty context. -/
def stBAC : ALContextState :=
  (getBufferAsync env3
    (getBufferAsync env3 (getBufferAsync env3 ctxInit "b").2.1 "a").2.1 "c").2.1

/-- The registry state after asynchronously fetching "a" in an empty
context. -/
def stA : ALContextState := (getBufferAsync env3 ctxInit "a").2.1

/-- The context state after one successful synchronous fetch of "a". -/
def stW1 : ALContextState :=
  { ctxInit with buffers := [freshBuffer "a" 0 decW], nextBid := 1 }

/-- `env3` with the `AL_SOFT_loop_points` extension present. -/
def env6 : Env := { env3 with hasLoopPointsExt := true }

/-- `env3` with a failing upload (`alGetError` reports an error after the
`alBufferData` block). -/
def env9 : Env := { env3 with uploadOk := false }

/-! ## Claims -/

/-- C1: every successful return of the synchronous `getBuffer` carries a
`Ready` buffer: a registry hit busy-waits (and cannot return while every
poll still observes `Pending`), and a miss inserts the freshly decoded
buffer already in the `Ready` state. -/
theorem C1_getBuffer_sync_ready :
    (∀ (env : Env) (st : ALContextState) (name : String)
       (observe : Nat → BufferLoadStatus) (fuel : Nat) (b : ALBuffer)
       (st' : ALContextState) (evs : List Event),
       getBuffer env st name observe fuel = some (.ok b, st', evs) →
       b.loadStatus = .Ready) ∧
    (∀ (env : Env) (st : ALContextState) (name : String)
       (observe : Nat → BufferLoadStatus) (fuel : Nat) (b : ALBuffer),
       env.ctxCurrent = true → foundAt env st name = some b →
       b.loadStatus = .Pending → (∀ k, observe k = .Pending) →
       getBuffer env st name observe fuel = none) := by
  constructor
  · intro env st name observe fuel b st' evs h
    unfold getBuffer at h
    split at h
    · obtain ⟨hr, -, -⟩ := triple_eq (Option.some.inj h)
      exact absurd hr (by simp)
    · split at h
      · split at h
        · obtain ⟨hr, -, -⟩ := triple_eq (Option.some.inj h)
          obtain rfl := Except.ok.inj hr
          assumption
        · split at h
          · exact absurd h (by simp)
          · obtain ⟨hr, -, -⟩ := triple_eq (Option.some.inj h)
            obtain rfl := Except.ok.inj hr
            exact busyWait_ready _ _ _ (by assumption)
      · exact (getBufferMiss_ok env st name _ b st' evs
          (Option.some.inj h)).1
  · intro env st name observe fuel b hcur hfound hpend hobs
    unfold getBuffer
    rw [hcur]
    simp only [Bool.true_eq_false, if_false, hfound]
    rw [if_neg (by simp [hpend]), busyWait_pending observe hobs fuel]

/-- C6: loop-point normalization in `getBuffer`: an inverted pair becomes
`(0, frames)`, otherwise the end is clamped to the frame count and the
start to one before the clamped end; `(5,3)` on 100 frames normalizes to
`(0,100)` and `(10,500)` clamps to `(10,100)`; the pair uploaded by a
fresh synchronous load (the `AL_LOOP_POINTS_SOFT` call) is exactly the
normalized pair for the decoder's reported loop points and decoded
frame count. -/
theorem C6_loop_point_normalization :
    (∀ s e f, s ≥ e → normalizeLoopPts s e f = (0, f)) ∧
    (∀ s e f, s < e → normalizeLoopPts s e f = (min s (min e f - 1), min e f)) ∧
    normalizeLoopPts 5 3 100 = (0, 100) ∧
    normalizeLoopPts 10 500 100 = (10, 100) ∧
    (∀ (env : Env) (st : ALContextState) (name : String)
       (observe : Nat → BufferLoadStatus) (fuel : Nat) (dec : Decoder)
       (b : ALBuffer) (st' : ALContextState) (evs : List Event),
       env.ctxCurrent = true → foundAt env st name = none →
       env.resolve name = .ok dec → env.hasLoopPointsExt = true →
       getBuffer env st name observe fuel = some (.ok b, st', evs) →
       Event.setLoopPoints st.nextBid
         (normalizeLoopPts dec.loopStart dec.loopEnd dec.readResult).1
         (normalizeLoopPts dec.loopStart dec.loopEnd dec.readResult).2 ∈ evs) := by
  refine ⟨?_, ?_, by decide, by decide, ?_⟩
  · intro s e f hse
    simp [normalizeLoopPts, hse]
  · intro s e f hse
    rw [normalizeLoopPts, if_neg (by omega)]
  · intro env st name observe fuel dec b st' evs hcur hfound hres hext hrun
    unfold getBuffer at hrun
    rw [hcur] at hrun
    simp only [Bool.true_eq_false, if_false, hfound] at hrun
    replace hrun := Option.some.inj hrun
    unfold getBufferMiss at hrun
    rw [hres] at hrun
    split at hrun
    · rename_i e heq
      exact absurd heq (by simp)
    · rename_i dec2 heq
      obtain rfl := Except.ok.inj heq
      split at hrun
      · exact absurd (triple_eq hrun).1 (by simp)
      · split at hrun
        · exact absurd (triple_eq hrun).1 (by simp)
        · split at hrun
          · obtain ⟨-, -, hevs⟩ := triple_eq hrun
            rw [← hevs]
            unfold loadEvents
            rw [hext]
            simp
          · exact absurd (triple_eq hrun).1 (by simp)

/-- C8: `destroy` fails with `InvalidOperation` exactly when the reference
count is nonzero or the buffer registry is non-empty (leaving the state
untouched — the function returns only the error); with zero references and
an empty registry it succeeds, and when the worker thread was started the
quit-flag store, the wake broadcast and the join all precede the ALC
context teardown. -/
theorem C8_destroy :
    ∀ st : ALContextState,
      (st.refs ≠ 0 ∨ st.buffers ≠ [] → destroy st = .error .InvalidOperation) ∧
      (st.refs = 0 → st.buffers = [] →
        destroy st =
          .ok ({ st with threadRunning := false, contextAlive := false },
            (if st.threadRunning then
              [Event.setQuitFlag, Event.wakeWorker, Event.joinThread]
             else []) ++ [Event.destroyALCContext, Event.removeFromDevice]) ∧
        (st.threadRunning = true →
          destroy st =
            .ok ({ st with threadRunning := false, contextAlive := false },
              [Event.setQuitFlag, Event.wakeWorker, Event.joinThread,
               Event.destroyALCContext, Event.removeFromDevice]))) := by
  intro st
  constructor
  · intro h
    unfold destroy
    rcases h with h | h
    · rw [if_pos h]
    · by_cases hr : st.refs = 0
      · rw [if_neg (by simp [hr]), if_pos h]
      · rw [if_pos hr]
  · intro hr hb
    constructor
    · unfold destroy
      rw [if_neg (by simp [hr]), if_neg (by simp [hb])]
    · intro ht
      unfold destroy
      rw [if_neg (by simp [hr]), if_neg (by simp [hb]), ht]
      rfl

/-- C8 witness: a concrete context with a started worker, zero references
and an empty registry destroys successfully with the quit/wake/join events
before teardown, and a concrete context with two references fails. -/
theorem C8_destroy_witness :
    destroy { ctxInit with threadRunning := true } =
      .ok ({ ctxInit with threadRunning := false, contextAlive := false },
        [Event.setQuitFlag, Event.wakeWorker, Event.joinThread,
         Event.destroyALCContext, Event.removeFromDevice]) ∧
    destroy { ctxInit with refs := 2 } = .error .InvalidOperation := by
  refine ⟨(C8_destroy { ctxInit with threadRunning := true }).2 rfl rfl |>.2 rfl, ?_⟩
  exact (C8_destroy { ctxInit with refs := 2 }).1 (Or.inl (by decide))

/-- C10: `FileIOFactory::get` never reports an absent factory: with no user
factory installed (also right after `set` installs none) it returns the
built-in default, which opens the named file as a binary stream and yields
no stream exactly when the file cannot be opened; `set` returns the
previously installed user factory and installs its argument. -/
theorem C10_file_io_factory :
    ∀ (fs : String → Option Nat) (cur : Option FileFactory)
      (f : FileFactory) (name : String),
      (fileIOFactoryGet fs none).openFile name = fs name ∧
      ((fileIOFactoryGet fs none).openFile name = none ↔ fs name = none) ∧
      fileIOFactoryGet fs (some f) = f ∧
      (fileIOFactorySet cur (some f)).1 = cur ∧
      (fileIOFactorySet cur (some f)).2 = some f ∧
      (fileIOFactorySet cur none).1 = cur ∧
      fileIOFactoryGet fs (fileIOFactorySet cur none).2 = DefaultFileIOFactory fs := by
  intro fs cur f name
  exact ⟨rfl, Iff.rfl, rfl, rfl, rfl, rfl, rfl⟩

/-- C9: failure atomicity of the two fetch paths: every error exit of
`getBuffer` and `getBufferAsync` leaves the context state (in particular
the registry) exactly as it was, insertion happening only after decoding,
validation and hardware allocation all succeed; and when the synchronous
upload fails the generated hardware buffer id is deleted again. -/
theorem C9_failure_atomicity :
    (∀ (env : Env) (st : ALContextState) (name : String)
       (observe : Nat → BufferLoadStatus) (fuel : Nat) (e : AlureError)
       (st' : ALContextState) (evs : List Event),
       getBuffer env st name observe fuel = some (.error e, st', evs) →
       st' = st) ∧
    (∀ (env : Env) (st : ALContextState) (name : String) (e : AlureError)
       (st' : ALContextState) (evs : List Event),
       getBufferAsync env st name = (.error e, st', evs) → st' = st) ∧
    (∀ (env : Env) (st : ALContextState) (name : String)
       (observe : Nat → BufferLoadStatus) (fuel : Nat) (dec : Decoder) (fmt : Nat),
       env.ctxCurrent = true → foundAt env st name = none →
       env.resolve name = .ok dec → dec.readResult ≠ 0 →
       env.getFormat dec.channels dec.sampleType = some fmt →
       env.uploadOk = false →
       ∃ evs, getBuffer env st name observe fuel =
           some (.error .FailedToBufferData, st, evs) ∧
         Event.deleteBuffers st.nextBid ∈ evs) := by
  refine ⟨?_, ?_, ?_⟩
  · intro env st name observe fuel e st' evs h
    unfold getBuffer at h
    split at h
    · exact (triple_eq (Option.some.inj h)).2.1.symm
    · split at h
      · split at h
        · simp at h
        · split at h
          · exact absurd h (by simp)
          · simp at h
      · exact getBufferMiss_error env st name _ e st' evs (Option.some.inj h)
  · intro env st name e st' evs h
    unfold getBufferAsync at h
    split at h
    · exact (triple_eq h).2.1.symm
    · split at h
      · simp at h
      · exact getBufferAsyncMiss_error env st name _ e st' evs h
  · intro env st name observe fuel dec fmt hcur hfound hres hframes hfmt hupload
    refine ⟨loadEvents env name st.nextBid dec ++ [Event.deleteBuffers st.nextBid],
      ?_, by simp⟩
    unfold getBuffer
    rw [hcur]
    simp only [Bool.true_eq_false, if_false, hfound]
    simp [getBufferMiss, hres, hframes, hfmt, hupload]


/-- C3 (counterexample): the registry is ordered by the `std::hash` of the
name, not by the name itself: under the hash `hasher3` (with
`hash "b" < hash "a" < hash "c"`), fetching "b", "a", "c" in that order
leaves the registry enumerating `["b", "a", "c"]`, not the sorted name
order `["a", "b", "c"]` the claim asserts. -/
theorem C3_counterexample :
    stBAC.buffers.map ALBuffer.name = ["b", "a", "c"] ∧
      stBAC.buffers.map ALBuffer.name ≠ ["a", "b", "c"] := by
  constructor
  · decide
  · decide

/-- C3 (amended): the buffer registry is at all times sorted by the hash of
the buffer name (the `lower_bound` key), an invariant preserved by
`getBuffer`, `getBufferAsync` and `removeBuffer`; the lookup is the
`lower_bound` binary search over that order (every entry before the
returned position has hash `< h`, the entry at it has hash `≥ h`); and
after inserting "b", "a", "c" the registry enumerates them in hash order
(`["b", "a", "c"]` under `hasher3`). -/
theorem C3_registry_hash_order :
    (∀ (env : Env) (st : ALContextState) (name : String)
       (observe : Nat → BufferLoadStatus) (fuel : Nat)
       (r : Except AlureError ALBuffer) (st' : ALContextState) (evs : List Event),
       SortedByHash env.hasher st.buffers →
       getBuffer env st name observe fuel = some (r, st', evs) →
       SortedByHash env.hasher st'.buffers) ∧
    (∀ (env : Env) (st : ALContextState) (name : String)
       (r : Except AlureError ALBuffer) (st' : ALContextState) (evs : List Event),
       SortedByHash env.hasher st.buffers →
       getBufferAsync env st name = (r, st', evs) →
       SortedByHash env.hasher st'.buffers) ∧
    (∀ (env : Env) (st : ALContextState) (name : String)
       (st' : ALContextState) (evs : List Event),
       SortedByHash env.hasher st.buffers →
       removeBuffer env st name = .ok (st', evs) →
       SortedByHash env.hasher st'.buffers) ∧
    (∀ (hasher : String → Nat) (hl : Nat) (l : List ALBuffer) (j : Nat)
       (b : ALBuffer), j < lowerBoundIdx hasher hl l → l.get? j = some b →
       hasher b.name < hl) ∧
    (∀ (hasher : String → Nat) (hl : Nat) (l : List ALBuffer) (b : ALBuffer),
       l.get? (lowerBoundIdx hasher hl l) = some b → hl ≤ hasher b.name) ∧
    (stBAC.buffers.map ALBuffer.name = ["b", "a", "c"] ∧
       SortedByHash env3.hasher stBAC.buffers) := by
  refine ⟨?_, ?_, ?_, ?_, ?_, by decide, by decide⟩
  · intro env st name observe fuel r st' evs hs h
    exact getBuffer_preserves_sorted env st name observe fuel r st' evs hs h
  · intro env st name r st' evs hs h
    exact getBufferAsync_preserves_sorted env st name r st' evs hs h
  · intro env st name st' evs hs h
    exact removeBuffer_preserves_sorted env st name st' evs hs h
  · intro hasher hl l j b hj hget
    exact lowerBoundIdx_lt hasher hl l j b hj hget
  · intro hasher hl l b hget
    exact lowerBoundIdx_ge hasher hl l b hget

/-- C3 witness: the sortedness-preservation conjunct applied to a concrete
asynchronous fetch of "d" on top of the "b","a","c" registry. -/
theorem C3_witness :
    SortedByHash env3.hasher ((getBufferAsync env3 stBAC "d").2.1.buffers) :=
  C3_registry_hash_order.2.1 env3 stBAC "d" (getBufferAsync env3 stBAC "d").1
    (getBufferAsync env3 stBAC "d").2.1 (getBufferAsync env3 stBAC "d").2.2
    (by decide) rfl

/-- C4 (counterexample): fetching a name that is already registered does
not fail with `InvalidOperation`: both paths return the existing buffer and
insert nothing.  Concretely, with "a" already in the registry the second
asynchronous fetch returns the stored `Pending` buffer (not an error) and
the registry still holds exactly one entry; the synchronous fetch likewise
returns it (as `Ready`, after the busy-wait) without error. -/
theorem C4_counterexample :
    (getBufferAsync env3 stA "a").1 = .ok (pendingBuffer "a" 0 decW) ∧
    (getBufferAsync env3 stA "a").1 ≠ .error .InvalidOperation ∧
    (getBufferAsync env3 stA "a").2.1.buffers.map ALBuffer.name = ["a"] ∧
    ((getBuffer env3 stA "a" (fun _ => .Ready) 1).map Prod.fst) =
      some (.ok { pendingBuffer "a" 0 decW with loadStatus := .Ready }) := by
  refine ⟨by decide, by decide, by decide, by decide⟩

/-- C4 (amended): fetching a name already present in the registry does not
fail: provided the hash-based `lower_bound` lookup finds the entry (which
holds whenever the hash is injective on the names involved, as hypothesised
here), `getBufferAsync` returns the stored buffer with the registry
unchanged, and `getBuffer` returns without inserting any new entry —
duplicate names are avoided by returning the existing buffer, not by
raising `InvalidOperation`. -/
theorem C4_duplicate_returns_existing :
    ∀ (env : Env) (st : ALContextState) (name : String) (b : ALBuffer),
      env.ctxCurrent = true →
      SortedByHash env.hasher st.buffers →
      b ∈ st.buffers → b.name = name →
      (∀ c ∈ st.buffers, env.hasher c.name = env.hasher name → c.name = name) →
      (∃ c, c ∈ st.buffers ∧ c.name = name ∧
        getBufferAsync env st name = (.ok c, st, [])) ∧
      (∀ (observe : Nat → BufferLoadStatus) (fuel : Nat)
         (r : Except AlureError ALBuffer) (st' : ALContextState)
         (evs : List Event),
         getBuffer env st name observe fuel = some (r, st', evs) →
         st'.buffers.map ALBuffer.name = st.buffers.map ALBuffer.name) := by
  intro env st name b hcur hs hmem hname hinj
  obtain ⟨c, hfa, hcname, hcmem⟩ := foundAt_of_mem env st name b hs hmem hname hinj
  constructor
  · refine ⟨c, hcmem, hcname, ?_⟩
    unfold getBufferAsync
    rw [hcur]
    simp only [Bool.true_eq_false, if_false, hfa]
  · intro observe fuel r st' evs h
    unfold getBuffer at h
    rw [hcur] at h
    simp only [Bool.true_eq_false, if_false, hfa] at h
    split at h
    · obtain ⟨-, hst, -⟩ := triple_eq (Option.some.inj h)
      rw [← hst]
    · split at h
      · exact absurd h (by simp)
      · obtain ⟨-, hst, -⟩ := triple_eq (Option.some.inj h)
        obtain ⟨hget, -⟩ := foundAt_some_inv env st name c hfa
        rw [← hst]
        exact map_name_set st.buffers _ c _ hget rfl

/-- C4 witness: the amended statement applied to the concrete registry
holding "a": the second asynchronous fetch returns the stored entry with
the registry unchanged. -/
theorem C4_witness :
    (∃ c, c ∈ stA.buffers ∧ c.name = "a" ∧
      getBufferAsync env3 stA "a" = (.ok c, stA, [])) ∧
    (∀ (observe : Nat → BufferLoadStatus) (fuel : Nat)
       (r : Except AlureError ALBuffer) (st' : ALContextState)
       (evs : List Event),
       getBuffer env3 stA "a" observe fuel = some (r, st', evs) →
       st'.buffers.map ALBuffer.name = stA.buffers.map ALBuffer.name) :=
  C4_duplicate_returns_existing env3 stA "a" (pendingBuffer "a" 0 decW)
    rfl (by decide) (by decide) (by decide) (by decide)


/-- C1 witness: a concrete synchronous fetch of "a" in the empty context
returns, and by the claim theorem its buffer is `Ready`. -/
theorem C1_witness : (freshBuffer "a" 0 decW).loadStatus = .Ready :=
  C1_getBuffer_sync_ready.1 env3 ctxInit "a" (fun _ => .Ready) 1
    (freshBuffer "a" 0 decW) stW1 [Event.genBuffers 0, Event.bufferData 0]
    (by decide)

/-- C6 witness: with the loop-points extension present, a concrete
synchronous load of a 100-frame buffer whose decoder reports loop points
`(5,3)` uploads the normalized pair `(0,100)`. -/
theorem C6_witness :
    Event.setLoopPoints 0 (normalizeLoopPts 5 3 100).1
      (normalizeLoopPts 5 3 100).2 ∈
      [Event.genBuffers 0, Event.bufferData 0, Event.setLoopPoints 0 0 100] :=
  C6_loop_point_normalization.2.2.2.2 env6 ctxInit "a" (fun _ => .Ready) 1
    decW (freshBuffer "a" 0 decW) stW1
    [Event.genBuffers 0, Event.bufferData 0, Event.setLoopPoints 0 0 100]
    rfl (by decide) rfl rfl (by decide)

/-- C9 witness: a concrete synchronous fetch whose upload fails leaves the
empty context unchanged and deletes the generated hardware id. -/
theorem C9_witness :
    ∃ evs, getBuffer env9 ctxInit "a" (fun _ => .Ready) 1 =
        some (.error .FailedToBufferData, ctxInit, evs) ∧
      Event.deleteBuffers ctxInit.nextBid ∈ evs :=
  C9_failure_atomicity.2.2 env9 ctxInit "a" (fun _ => .Ready) 1 decW 1
    rfl (by decide) rfl (by decide) rfl rfl


/-! ## Scan lemmas for the voice-eviction path -/

theorem scanStep_id_zero (acc : Option ALSource) (s : ALSource)
    (hs : s.id = 0) : scanStep acc s = acc := by
  rw [scanStep.eq_def, if_pos hs]

theorem scanStep_none (s : ALSource) (hs : ¬ s.id = 0) :
    scanStep none s = some s := by
  rw [scanStep.eq_def, if_neg hs]

theorem scanStep_some_lt (a s : ALSource) (hs : ¬ s.id = 0)
    (hp : s.priority < a.priority) : scanStep (some a) s = some s := by
  rw [scanStep.eq_def, if_neg hs]
  exact if_pos hp

theorem scanStep_some_ge (a s : ALSource) (hs : ¬ s.id = 0)
    (hp : ¬ s.priority < a.priority) : scanStep (some a) s = some a := by
  rw [scanStep.eq_def, if_neg hs]
  exact if_neg hp

theorem scanLowest_none_inv :
    ∀ (l : List ALSource) (acc : Option ALSource),
      scanLowest acc l = none → acc = none ∧ ∀ t ∈ l, t.id = 0
  | [], acc => by
    rw [scanLowest]
    intro h
    exact ⟨h, by simp⟩
  | s :: rest, acc => by
    rw [scanLowest]
    intro h
    by_cases hs : s.id = 0
    · rw [scanStep_id_zero acc s hs] at h
      obtain ⟨ha, hall⟩ := scanLowest_none_inv rest acc h
      refine ⟨ha, ?_⟩
      intro t ht
      rcases List.mem_cons.mp ht with rfl | ht2
      · exact hs
      · exact hall t ht2
    · exfalso
      rcases acc with _ | a
      · rw [scanStep_none s hs] at h
        exact absurd (scanLowest_none_inv rest _ h).1 (by simp)
      · by_cases hp : s.priority < a.priority
        · rw [scanStep_some_lt a s hs hp] at h
          exact absurd (scanLowest_none_inv rest _ h).1 (by simp)
        · rw [scanStep_some_ge a s hs hp] at h
          exact absurd (scanLowest_none_inv rest _ h).1 (by simp)

theorem scanLowest_id_ne :
    ∀ (l : List ALSource) (acc : Option ALSource) (low : ALSource),
      (∀ a, acc = some a → a.id ≠ 0) → scanLowest acc l = some low →
      low.id ≠ 0
  | [], acc, low => by
    rw [scanLowest]
    intro hacc h
    exact hacc low h
  | s :: rest, acc, low => by
    rw [scanLowest]
    intro hacc h
    by_cases hs : s.id = 0
    · rw [scanStep_id_zero acc s hs] at h
      exact scanLowest_id_ne rest acc low hacc h
    · refine scanLowest_id_ne rest _ low ?_ h
      intro x hx
      rcases acc with _ | a
      · rw [scanStep_none s hs] at hx
        obtain rfl := Option.some.inj hx
        exact hs
      · by_cases hp : s.priority < a.priority
        · rw [scanStep_some_lt a s hs hp] at hx
          obtain rfl := Option.some.inj hx
          exact hs
        · rw [scanStep_some_ge a s hs hp] at hx
          obtain rfl := Option.some.inj hx
          exact hacc _ rfl

theorem scanLowest_acc_le :
    ∀ (l : List ALSource) (a low : ALSource),
      scanLowest (some a) l = some low → low.priority ≤ a.priority
  | [], a, low => by
    rw [scanLowest]
    intro h
    obtain rfl := Option.some.inj h
    exact Nat.le_refl _
  | s :: rest, a, low => by
    rw [scanLowest]
    intro h
    by_cases hs : s.id = 0
    · rw [scanStep_id_zero _ s hs] at h
      exact scanLowest_acc_le rest a low h
    · by_cases hp : s.priority < a.priority
      · rw [scanStep_some_lt a s hs hp] at h
        have := scanLowest_acc_le rest s low h
        omega
      · rw [scanStep_some_ge a s hs hp] at h
        exact scanLowest_acc_le rest a low h

theorem scanLowest_min :
    ∀ (l : List ALSource) (acc : Option ALSource) (low : ALSource),
      scanLowest acc l = some low →
      ∀ t ∈ l, t.id ≠ 0 → low.priority ≤ t.priority
  | [], acc, low => by
    intro _ t ht
    exact absurd ht (List.not_mem_nil t)
  | s :: rest, acc, low => by
    rw [scanLowest]
    intro h t ht htid
    rcases List.mem_cons.mp ht with rfl | ht2
    · rcases acc with _ | a
      · rw [scanStep_none t htid] at h
        exact scanLowest_acc_le rest t low h
      · by_cases hp : t.priority < a.priority
        · rw [scanStep_some_lt a t htid hp] at h
          exact scanLowest_acc_le rest t low h
        · rw [scanStep_some_ge a t htid hp] at h
          have := scanLowest_acc_le rest a low h
          omega
    · exact scanLowest_min rest _ low h t ht2 htid

theorem scanLowest_first_some :
    ∀ (l : List ALSource) (a low : ALSource),
      scanLowest (some a) l = some low →
      low = a ∨ (low.priority < a.priority ∧ ∃ l1 l2, l = l1 ++ low :: l2 ∧
        ∀ t ∈ l1, t.id ≠ 0 → low.priority < t.priority)
  | [], a, low => by
    rw [scanLowest]
    intro h
    exact Or.inl (Option.some.inj h).symm
  | s :: rest, a, low => by
    rw [scanLowest]
    intro h
    by_cases hs : s.id = 0
    · rw [scanStep_id_zero _ s hs] at h
      rcases scanLowest_first_some rest a low h with rfl | ⟨hlt, l1, l2, hsplit, hl1⟩
      · exact Or.inl rfl
      · refine Or.inr ⟨hlt, s :: l1, l2, by rw [hsplit, List.cons_append], ?_⟩
        intro t ht
        rcases List.mem_cons.mp ht with rfl | ht2
        · intro htid
          exact absurd hs htid
        · exact hl1 t ht2
    · by_cases hp : s.priority < a.priority
      · rw [scanStep_some_lt a s hs hp] at h
        rcases scanLowest_first_some rest s low h with rfl | ⟨hlt, l1, l2, hsplit, hl1⟩
        · exact Or.inr ⟨hp, [], rest, rfl, by simp⟩
        · refine Or.inr ⟨Nat.lt_trans hlt hp, s :: l1, l2, by rw [hsplit, List.cons_append], ?_⟩
          intro t ht
          rcases List.mem_cons.mp ht with rfl | ht2
          · intro _
            exact hlt
          · exact hl1 t ht2
      · rw [scanStep_some_ge a s hs hp] at h
        rcases scanLowest_first_some rest a low h with rfl | ⟨hlt, l1, l2, hsplit, hl1⟩
        · exact Or.inl rfl
        · refine Or.inr ⟨hlt, s :: l1, l2, by rw [hsplit, List.cons_append], ?_⟩
          intro t ht
          rcases List.mem_cons.mp ht with rfl | ht2
          · intro _
            omega
          · exact hl1 t ht2

theorem scanLowest_first :
    ∀ (l : List ALSource) (low : ALSource),
      scanLowest none l = some low →
      ∃ l1 l2, l = l1 ++ low :: l2 ∧
        ∀ t ∈ l1, t.id ≠ 0 → low.priority < t.priority
  | [], low => by
    rw [scanLowest]
    intro h
    exact absurd h (by simp)
  | s :: rest, low => by
    rw [scanLowest]
    intro h
    by_cases hs : s.id = 0
    · rw [scanStep_id_zero none s hs] at h
      obtain ⟨l1, l2, hsplit, hl1⟩ := scanLowest_first rest low h
      refine ⟨s :: l1, l2, by rw [hsplit, List.cons_append], ?_⟩
      intro t ht
      rcases List.mem_cons.mp ht with rfl | ht2
      · intro htid
        exact absurd hs htid
      · exact hl1 t ht2
    · rw [scanStep_none s hs] at h
      rcases scanLowest_first_some rest s low h with rfl | ⟨hlt, l1, l2, hsplit, hl1⟩
      · exact ⟨[], rest, rfl, by simp⟩
      · refine ⟨s :: l1, l2, by rw [hsplit, List.cons_append], ?_⟩
        intro t ht
        rcases List.mem_cons.mp ht with rfl | ht2
        · intro _
          exact hlt
        · exact hl1 t ht2


theorem evictLowest_none (m : Bool) (st : VoiceState) (maxprio : Nat)
    (hscan : scanLowest none st.usedSources = none) :
    evictLowest m st maxprio = (st, []) := by
  unfold evictLowest
  rw [hscan]

theorem evictLowest_lt (st : VoiceState) (maxprio : Nat) (low : ALSource)
    (hscan : scanLowest none st.usedSources = some low)
    (hp : low.priority < maxprio) :
    evictLowest true st maxprio =
      ({ sourceIds := low.id :: st.sourceIds,
         usedSources := stopSource st.usedSources low.handle },
       [Event.sourceStopped low.handle true]) := by
  unfold evictLowest
  rw [hscan]
  simp [hp]

theorem evictLowest_ge (m : Bool) (st : VoiceState) (maxprio : Nat)
    (low : ALSource) (hscan : scanLowest none st.usedSources = some low)
    (hp : ¬ low.priority < maxprio) :
    evictLowest m st maxprio = (st, []) := by
  unfold evictLowest
  rw [hscan]
  simp [hp]

/-- C2: on `getSourceId(maxprio)` with the free stack empty and hardware
allocation failing (and a message handler installed): among the sources
holding a voice, the scan selects one of minimal priority, the first so
encountered; it is stopped and `sourceStopped(…, wasForced = true)` is
emitted exactly when its priority is strictly below `maxprio` (the call
then returns its reclaimed voice id); otherwise — in particular whenever
every used source has priority exactly `maxprio` — the call fails with
`ResourceExhausted`. -/
theorem C2_voice_eviction :
    ∀ (env : VoiceEnv) (st : VoiceState) (maxprio : Nat),
      env.ctxCurrent = true → st.sourceIds = [] → env.genOk = false →
      env.msgPresent = true →
      (scanLowest none st.usedSources = none →
        getSourceId env st maxprio = .error .ResourceExhausted) ∧
      (∀ low, scanLowest none st.usedSources = some low →
        low.id ≠ 0 ∧
        (∀ t ∈ st.usedSources, t.id ≠ 0 → low.priority ≤ t.priority) ∧
        (∃ l1 l2, st.usedSources = l1 ++ low :: l2 ∧
          ∀ t ∈ l1, t.id ≠ 0 → low.priority < t.priority) ∧
        (low.priority < maxprio →
          getSourceId env st maxprio =
            .ok (low.id,
              { sourceIds := [],
                usedSources := stopSource st.usedSources low.handle },
              [Event.sourceStopped low.handle true])) ∧
        (¬ low.priority < maxprio →
          getSourceId env st maxprio = .error .ResourceExhausted)) ∧
      ((∀ t ∈ st.usedSources, t.priority = maxprio) →
        getSourceId env st maxprio = .error .ResourceExhausted) := by
  intro env st maxprio hcur hids hgen hmsg
  refine ⟨?_, ?_, ?_⟩
  · intro hscan
    have he := evictLowest_none env.msgPresent st maxprio hscan
    simp only [getSourceId, hcur, Bool.true_eq_false, Bool.false_eq_true,
      if_false, hids, hgen, he]
  · intro low hscan
    refine ⟨scanLowest_id_ne st.usedSources none low (by simp) hscan,
      scanLowest_min st.usedSources none low hscan,
      scanLowest_first st.usedSources low hscan, ?_, ?_⟩
    · intro hp
      have he := evictLowest_lt st maxprio low hscan hp
      simp only [getSourceId, hcur, Bool.true_eq_false, Bool.false_eq_true,
        if_false, hids, hgen, hmsg, he]
    · intro hp
      have he := evictLowest_ge env.msgPresent st maxprio low hscan hp
      simp only [getSourceId, hcur, Bool.true_eq_false, Bool.false_eq_true,
        if_false, hids, hgen, he]
  · intro hall
    rcases hscan : scanLowest none st.usedSources with _ | low
    · have he := evictLowest_none env.msgPresent st maxprio hscan
      simp only [getSourceId, hcur, Bool.true_eq_false, Bool.false_eq_true,
        if_false, hids, hgen, he]
    · have hmem : low ∈ st.usedSources := by
        obtain ⟨l1, l2, hsplit, -⟩ := scanLowest_first st.usedSources low hscan
        rw [hsplit]
        exact List.mem_append_right _ (List.mem_cons_self _ _)
      have he := evictLowest_ge env.msgPresent st maxprio low hscan
        (by have := hall low hmem; omega)
      simp only [getSourceId, hcur, Bool.true_eq_false, Bool.false_eq_true,
        if_false, hids, hgen, he]

/-- C2 witness: two sources hold voices 10 and 11 with priorities 5 and 3;
a request at priority 4 over the exhausted pool evicts the priority-3
source (handle 2), emits the forced `sourceStopped`, and returns its
voice id 11. -/
theorem C2_witness :
    getSourceId { ctxCurrent := true, genOk := false, genId := 0, msgPresent := true }
      { sourceIds := [],
        usedSources := [{ handle := 1, id := 10, priority := 5 },
                        { handle := 2, id := 11, priority := 3 }] } 4 =
      .ok (11,
        { sourceIds := [],
          usedSources := [{ handle := 1, id := 10, priority := 5 },
                          { handle := 2, id := 0, priority := 3 }] },
        [Event.sourceStopped 2 true]) := by
  have h := (C2_voice_eviction
    { ctxCurrent := true, genOk := false, genId := 0, msgPresent := true }
    { sourceIds := [],
      usedSources := [{ handle := 1, id := 10, priority := 5 },
                      { handle := 2, id := 11, priority := 3 }] } 4
    rfl rfl rfl rfl).2.1 { handle := 2, id := 11, priority := 3 } (by decide)
  have h2 := h.2.2.2.1 (by decide)
  exact h2


/-- A factory that rejects every stream, advancing the read position by 7
and handing the stream back. -/
def rejFac : DecoderFactory :=
  { create := fun s => (none, some { s with pos := s.pos + 7 }) }

/-- A factory that accepts every stream; the decoder it yields records the
stream position it observed in its frequency field (`100 + pos`). -/
def accFac : DecoderFactory :=
  { create := fun s => (some { decW with frequency := 100 + s.pos }, none) }

/-- C5 (counterexample): registered decoder factories are tried in the
iteration order of the name-keyed `std::map`, not in registration order.
Registering a rejecting factory "b", then a rejecting "c", then an
accepting "a" puts "a" first in the map; resolution then tries "a" first
and succeeds with zero rewinds, not the two rewinds the claim derives from
registration order (the premise — first two registered reject, third
accepts — holds, the "rewound twice" conclusion fails). -/
theorem C5_counterexample :
    RegisterDecoder [] "b" rejFac = .ok [("b", rejFac)] ∧
    RegisterDecoder [("b", rejFac)] "c" rejFac =
      .ok [("b", rejFac), ("c", rejFac)] ∧
    RegisterDecoder [("b", rejFac), ("c", rejFac)] "a" accFac =
      .ok [("a", accFac), ("b", rejFac), ("c", rejFac)] ∧
    GetDecoder { pos := 0, seekOk := true }
      [("a", accFac), ("b", rejFac), ("c", rejFac)] [] =
      .ok ({ decW with frequency := 100 }, 0) ∧
    (0 : Nat) ≠ 2 := by
  refine ⟨rfl, rfl, rfl, rfl, by decide⟩

/-- C5 (amended): decoder resolution tries the registered factories in the
iteration (ascending name) order of the `sDecoders` map — registration
inserts by name, so registration order is irrelevant — then the built-in
factories in their fixed array order; after every rejection the stream is
rewound to position 0 (its position at open time), a factory that nulls
the stream or a failing seek raising a fatal `IOError`.  When the first
two factories in iteration order reject and the third accepts, the result
is the third factory's decoder, the stream was rewound twice, and the
third attempt sees the stream at its open-time position. -/
theorem C5_decoder_iteration_order :
    (∀ (fb fc fa : DecoderFactory),
      RegisterDecoder [] "b" fb = .ok [("b", fb)] ∧
      RegisterDecoder [("b", fb)] "c" fc = .ok [("b", fb), ("c", fc)] ∧
      RegisterDecoder [("b", fb), ("c", fc)] "a" fa =
        .ok [("a", fa), ("b", fb), ("c", fc)]) ∧
    (∀ (f1 f2 f3 : DecoderFactory) (bs : List DecoderFactory)
       (file s1 s2 : DStream) (d : Decoder) (r : Option DStream),
       file.pos = 0 →
       f1.create file = (none, some s1) → s1.seekOk = true →
       f2.create { s1 with pos := 0 } = (none, some s2) → s2.seekOk = true →
       f3.create { s2 with pos := 0 } = (some d, r) →
       GetDecoder file [("a", f1), ("b", f2), ("c", f3)] bs = .ok (d, 2) ∧
       ({ s2 with pos := 0 } : DStream).pos = file.pos) ∧
    (∀ (f1 f2 f3 : DecoderFactory) (bs : List DecoderFactory)
       (file s1 : DStream),
       f1.create file = (none, some s1) → s1.seekOk = false →
       GetDecoder file [("a", f1), ("b", f2), ("c", f3)] bs =
         .error .IOError) ∧
    (∀ (f1 f2 f3 : DecoderFactory) (bs : List DecoderFactory) (file : DStream),
       f1.create file = (none, none) →
       GetDecoder file [("a", f1), ("b", f2), ("c", f3)] bs =
         .error .IOError) := by
  refine ⟨?_, ?_, ?_, ?_⟩
  · intro fb fc fa
    exact ⟨rfl, rfl, rfl⟩
  · intro f1 f2 f3 bs file s1 s2 d r hpos h1 hok1 h2 hok2 h3
    rw [hok1] at h2
    rw [hok2] at h3
    constructor
    · simp [GetDecoder, tryFactories, h1, h2, h3, hok1, hok2]
    · exact hpos.symm
  · intro f1 f2 f3 bs file s1 h1 hok1
    simp [GetDecoder, tryFactories, h1, hok1]
  · intro f1 f2 f3 bs file h1
    simp [GetDecoder, tryFactories, h1]

/-- C5 witness: two rejecting factories under names "a" and "b" and an
accepting factory under "c": resolution returns the accepting factory's
decoder after exactly two rewinds, and the accepting factory observed the
stream at position 0 (its frequency tag is `100 + 0`). -/
theorem C5_witness :
    GetDecoder { pos := 0, seekOk := true }
      [("a", rejFac), ("b", rejFac), ("c", accFac)] [] =
      .ok ({ decW with frequency := 100 }, 2) ∧
    ({ pos := 0, seekOk := true } : DStream).pos =
      ({ pos := 0, seekOk := true } : DStream).pos :=
  (C5_decoder_iteration_order.2.1 rejFac rejFac accFac []
    { pos := 0, seekOk := true } { pos := 7, seekOk := true }
    { pos := 7, seekOk := true } { decW with frequency := 100 } none
    rfl rfl rfl rfl rfl rfl).imp id (fun _ => rfl)


/-! ## Source-pool lemmas -/

theorem mem_insertSortedNat :
    ∀ (l : List Nat) (y x : Nat), x ∈ insertSortedNat l y ↔ x = y ∨ x ∈ l
  | [], y, x => by simp [insertSortedNat]
  | a :: l, y, x => by
    rw [insertSortedNat]
    by_cases h1 : y < a
    · rw [if_pos h1]
      simp only [List.mem_cons]
    · rw [if_neg h1]
      by_cases h2 : y = a
      · rw [if_pos h2]
        subst h2
        simp only [List.mem_cons]
        tauto
      · rw [if_neg h2]
        simp only [List.mem_cons, mem_insertSortedNat l y x]
        tauto

theorem insertSortedNat_sorted :
    ∀ (l : List Nat) (y : Nat), l.Sorted (· < ·) →
      (insertSortedNat l y).Sorted (· < ·)
  | [], y, _ => by simp [insertSortedNat]
  | a :: l, y, h => by
    rw [insertSortedNat]
    rw [List.sorted_cons] at h
    by_cases h1 : y < a
    · rw [if_pos h1, List.sorted_cons]
      refine ⟨?_, List.sorted_cons.mpr h⟩
      intro b hb
      rcases List.mem_cons.mp hb with rfl | hbl
      · exact h1
      · exact Nat.lt_trans h1 (h.1 b hbl)
    · rw [if_neg h1]
      by_cases h2 : y = a
      · rw [if_pos h2]
        exact List.sorted_cons.mpr h
      · rw [if_neg h2, List.sorted_cons]
        refine ⟨?_, insertSortedNat_sorted l y h.2⟩
        intro b hb
        rcases (mem_insertSortedNat l y b).mp hb with rfl | hbl
        · omega
        · exact h.1 b hbl

theorem mem_eraseSortedNat :
    ∀ (l : List Nat) (y x : Nat), x ∈ eraseSortedNat l y → x ∈ l
  | [], y, x => by simp [eraseSortedNat]
  | a :: l, y, x => by
    rw [eraseSortedNat]
    by_cases h1 : a = y
    · rw [if_pos h1]
      exact List.mem_cons_of_mem _
    · rw [if_neg h1]
      intro hx
      rcases List.mem_cons.mp hx with rfl | hxl
      · exact List.mem_cons_self _ _
      · exact List.mem_cons_of_mem _ (mem_eraseSortedNat l y x hxl)

theorem eraseSortedNat_sorted :
    ∀ (l : List Nat) (y : Nat), l.Sorted (· < ·) →
      (eraseSortedNat l y).Sorted (· < ·)
  | [], y, h => h
  | a :: l, y, h => by
    rw [eraseSortedNat]
    by_cases h1 : a = y
    · rw [if_pos h1]
      exact (List.sorted_cons.mp h).2
    · rw [if_neg h1]
      rw [List.sorted_cons] at h ⊢
      exact ⟨fun b hb => h.1 b (mem_eraseSortedNat l y b hb),
             eraseSortedNat_sorted l y h.2⟩

theorem not_mem_eraseSortedNat :
    ∀ (l : List Nat) (y : Nat), l.Sorted (· < ·) → y ∉ eraseSortedNat l y
  | [], y, _ => by simp [eraseSortedNat]
  | a :: l, y, h => by
    rw [eraseSortedNat]
    by_cases h1 : a = y
    · rw [if_pos h1]
      subst h1
      intro hy
      exact absurd ((List.sorted_cons.mp h).1 a hy) (Nat.lt_irrefl a)
    · rw [if_neg h1]
      intro hy
      rcases List.mem_cons.mp hy with rfl | hyl
      · exact h1 rfl
      · exact not_mem_eraseSortedNat l y (List.sorted_cons.mp h).2 hyl

/-- The pool invariant: the used-source index is strictly sorted (hence
duplicate-free) and every source in the used or free lists was actually
allocated. -/
def PoolInv (st : SrcPoolState) : Prop :=
  st.usedSources.Sorted (· < ·) ∧
  (∀ x ∈ st.usedSources, x < st.allCount) ∧
  (∀ x ∈ st.freeSources, x < st.allCount)

theorem poolInv_create (st : SrcPoolState) (h : PoolInv st) :
    PoolInv (createSource st).2 := by
  rcases hf : st.freeSources with _ | ⟨s, rest⟩
  · have hc : (createSource st).2 =
        { allCount := st.allCount + 1, freeSources := [],
          usedSources := insertSortedNat st.usedSources st.allCount } := by
      simp [createSource, hf]
    rw [hc]
    refine ⟨insertSortedNat_sorted _ _ h.1, ?_, ?_⟩
    · intro x hx
      rcases (mem_insertSortedNat _ _ x).mp hx with rfl | hxl
      · dsimp only
        omega
      · dsimp only
        have := h.2.1 x hxl
        omega
    · intro x hx
      exact absurd hx (List.not_mem_nil x)
  · have hc : (createSource st).2 =
        { allCount := st.allCount, freeSources := rest,
          usedSources := insertSortedNat st.usedSources s } := by
      simp [createSource, hf]
    rw [hc]
    refine ⟨insertSortedNat_sorted _ _ h.1, ?_, ?_⟩
    · intro x hx
      rcases (mem_insertSortedNat _ _ x).mp hx with rfl | hxl
      · exact h.2.2 x (hf ▸ List.mem_cons_self _ _)
      · exact h.2.1 x hxl
    · intro x hx
      exact h.2.2 x (hf ▸ List.mem_cons_of_mem _ hx)

theorem poolInv_free (st : SrcPoolState) (s : Nat) (hs : s ∈ st.usedSources)
    (h : PoolInv st) : PoolInv (freeSource st s) := by
  refine ⟨eraseSortedNat_sorted _ _ h.1, ?_, ?_⟩
  · intro x hx
    exact h.2.1 x (mem_eraseSortedNat _ _ x hx)
  · intro x hx
    rcases List.mem_cons.mp hx with rfl | hxl
    · exact h.2.1 x hs
    · exact h.2.2 x hxl

theorem poolInv_run :
    ∀ (ops : List SrcOp) (st : SrcPoolState), validOps ops st = true →
      PoolInv st → PoolInv (runOps ops st)
  | [], st, _, h => h
  | .create :: ops, st, hv, h => by
    rw [validOps] at hv
    exact poolInv_run ops _ hv (poolInv_create st h)
  | .free s :: ops, st, hv, h => by
    rw [validOps, Bool.and_eq_true] at hv
    exact poolInv_run ops _ hv.2
      (poolInv_free st s (by simpa using hv.1) h)

theorem sorted_length_le (l : List Nat) (n : Nat) (hs : l.Sorted (· < ·))
    (hb : ∀ x ∈ l, x < n) : l.length ≤ n := by
  have hnd : l.Nodup := hs.nodup
  calc l.length = l.toFinset.card := (List.toFinset_card_of_nodup hnd).symm
    _ ≤ (Finset.range n).card := by
        refine Finset.card_le_card ?_
        intro x hx
        rw [List.mem_toFinset] at hx
        rw [Finset.mem_range]
        exact hb x hx
    _ = n := Finset.card_range n

/-- C7: over every valid `createSource`/`freeSource` call sequence from the
empty pool: the pool invariant holds, the number of live sources (the used
index) never exceeds the number of `ALSource` objects ever constructed; a
brand-new object is allocated exactly when the free list is empty;
releasing a source and then creating returns that same source with no new
allocation (free-list reuse); and a released source is gone from the
used-source index. -/
theorem C7_source_recycling :
    ∀ ops : List SrcOp, validOps ops poolInit = true →
      PoolInv (runOps ops poolInit) ∧
      (runOps ops poolInit).usedSources.length ≤ (runOps ops poolInit).allCount ∧
      (∀ st : SrcPoolState,
        (createSource st).2.allCount =
          st.allCount + (if st.freeSources = [] then 1 else 0)) ∧
      (∀ (st : SrcPoolState) (s : Nat),
        (createSource (freeSource st s)).1 = s ∧
        (createSource (freeSource st s)).2.allCount = st.allCount) ∧
      (∀ s : Nat, s ∉ (freeSource (runOps ops poolInit) s).usedSources) := by
  intro ops hv
  have hinv : PoolInv (runOps ops poolInit) :=
    poolInv_run ops poolInit hv
      ⟨List.sorted_nil, fun x hx => absurd hx (List.not_mem_nil x),
        fun x hx => absurd hx (List.not_mem_nil x)⟩
  refine ⟨hinv, sorted_length_le _ _ hinv.1 hinv.2.1, ?_, ?_, ?_⟩
  · intro st
    rcases hf : st.freeSources with _ | ⟨s, rest⟩
    · simp [createSource, hf]
    · simp [createSource, hf]
  · intro st s
    exact ⟨rfl, rfl⟩
  · intro s
    exact not_mem_eraseSortedNat _ s hinv.1

/-- C7 witness: the sequence create, create, free 0, create (valid from the
empty pool) keeps the live count within the allocation count. -/
theorem C7_witness :
    (runOps [SrcOp.create, SrcOp.create, SrcOp.free 0, SrcOp.create]
      poolInit).usedSources.length ≤
      (runOps [SrcOp.create, SrcOp.create, SrcOp.free 0, SrcOp.create]
        poolInit).allCount :=
  (C7_source_recycling [SrcOp.create, SrcOp.create, SrcOp.free 0, SrcOp.create]
    (by decide)).2.1

end Alure
